import Mathlib

/-!
Shallow embedding of the micro-blossom decoding core, translated from:

  * `src/cpu/blossom/src/dual_module_rtl.rs` (pipelined RTL dual module),
  * `src/cpu/blossom/src/dual_module_comb_edge.rs` (combinational edge),
  * `src/cpu/blossom-nostd/src/primal_nodes.rs` (primal node arena),

together with theorems settling the frozen claims about the
natural-language specification of the repository.

Machine integers: the Rust code uses `Weight = i64`-like signed weights and
small unsigned indices; none of the claims exercise overflow, so weights are
embedded as `Int` and indices as `Nat`.  Rust fatal paths (`assert!`,
`unwrap`, out-of-bounds indexing) are embedded as `Except String` errors or
`Option.none`; `debug_assert!` (compiled out in release builds) is embedded
as documented at each use site.
-/

namespace MicroBlossom

/-- Growth state of a dual node: `DualNodeGrowState` in `dual_module_rtl.rs`
and `CompactGrowState` in the nostd primal module. -/
inductive GrowState where
  | Grow
  | Shrink
  | Stay
deriving DecidableEq, Repr

namespace RTL

/-- Per-vertex register state (struct `Vertex` in `dual_module_rtl.rs`). -/
structure Vertex where
  vertex_index : Nat
  edge_indices : List Nat
  speed : GrowState
  grown : Int
  is_virtual : Bool
  is_defect : Bool
  node_index : Option Nat
  root_index : Option Nat
deriving DecidableEq, Repr

/-- Per-edge register state (struct `Edge` in `dual_module_rtl.rs`). -/
structure Edge where
  edge_index : Nat
  weight : Int
  left_index : Nat
  right_index : Nat
  left_growth : Int
  right_growth : Int
deriving DecidableEq, Repr

/-- The RTL dual module state: the vertex and edge register arrays
(struct `DualModuleRTL`; the `initializer`, `nodes` and `sync_requests`
fields belong to the outer driver and play no role in the pipeline). -/
structure DualModuleRTL where
  vertices : List Vertex
  edges : List Edge
deriving DecidableEq, Repr

/-- Instructions accepted by the RTL pipeline (enum `Instruction`). -/
inductive Instruction where
  | SetSpeed (node : Nat) (speed : GrowState)
  | SetBlossom (node : Nat) (blossom : Nat)
  | AddDefectVertex (vertex : Nat) (node : Nat)
  | FindObstacle (region_preference : Nat)
  | Grow (length : Int)
deriving DecidableEq, Repr

/-- Responses of the RTL pipeline (enum `Response`). -/
inductive Response where
  | NonZeroGrow (length : Int)
  | Conflict (node_1 node_2 touch_1 touch_2 vertex_1 vertex_2 : Nat)
  | ConflictVirtual (node touch vertex virtual_vertex : Nat)
  | BlossomNeedExpand (blossom : Nat)
deriving DecidableEq, Repr

/-- Translation of `Response::reduce`: the source body is literally
`None // TODO`, discarding both arguments. -/
def Response.reduce (resp1 resp2 : Option Response) : Option Response :=
  none

/-- Junk vertex used for the (unreachable in the claims) out-of-bounds
index paths, where the Rust `Vec` indexing is fatal. -/
def Vertex.junk : Vertex :=
  { vertex_index := 0, edge_indices := [], speed := .Stay, grown := 0,
    is_virtual := false, is_defect := false, node_index := none, root_index := none }

/-- Junk edge for out-of-bounds edge indexing (fatal in the source). -/
def Edge.junk : Edge :=
  { edge_index := 0, weight := 0, left_index := 0, right_index := 0,
    left_growth := 0, right_growth := 0 }

/-- Array access `dual_module.vertices[i]`. -/
def DualModuleRTL.vertex_at (s : DualModuleRTL) (i : Nat) : Vertex :=
  s.vertices.getD i Vertex.junk

/-- Array access `dual_module.edges[i]`. -/
def DualModuleRTL.edge_at (s : DualModuleRTL) (i : Nat) : Edge :=
  s.edges.getD i Edge.junk

/-- Numeric speed of a vertex (`Vertex::get_speed`). -/
def Vertex.get_speed (v : Vertex) : Int :=
  match v.speed with
  | .Stay => 0
  | .Shrink => -1
  | .Grow => 1

/-- Edge tightness (`Edge::is_tight`). -/
def Edge.is_tight (e : Edge) : Bool :=
  e.left_growth + e.right_growth ≥ e.weight

/-- The endpoint of `e` opposite to `vertex` (`Edge::get_peer`); the
non-incident case is fatal in the source and returns junk here. -/
def Edge.get_peer (e : Edge) (vertex : Nat) : Nat :=
  if vertex = e.left_index then e.right_index
  else if vertex = e.right_index then e.left_index
  else e.left_index

/-- Whether the side of `e` owned by `vertex` is fully grown
(`Edge::is_tight_from`); the non-incident case is fatal in the source and
returns false here. -/
def Edge.is_tight_from (e : Edge) (vertex : Nat) : Bool :=
  if vertex = e.left_index then e.left_growth = e.weight
  else if vertex = e.right_index then e.right_growth = e.weight
  else false

/-- Error message of the `assert!(self.grown >= 0)` in `Vertex::execute_stage`. -/
def vertex_grow_assert_msg : String := "assertion failed: vertex grown is negative"

/-- Execute stage of a vertex (`Vertex::execute_stage` in the
`DualPipelined` impl); the `assert!` on `Grow` is an `Except.error`. -/
def Vertex.execute_stage (v : Vertex) (instruction : Instruction) : Except String Vertex :=
  match instruction with
  | .AddDefectVertex vertex node =>
      if vertex = v.vertex_index then
        .ok { v with is_defect := true, speed := .Grow,
                     root_index := some node, node_index := some node }
      else .ok v
  | .SetSpeed node speed =>
      if some node = v.node_index then .ok { v with speed := speed } else .ok v
  | .Grow length =>
      let grown := v.grown + v.get_speed * length
      if grown ≥ 0 then .ok { v with grown := grown } else .error vertex_grow_assert_msg
  | .SetBlossom node blossom =>
      if some node = v.node_index ∨ some node = v.root_index then
        .ok { v with node_index := some blossom, speed := .Grow }
      else .ok v
  | .FindObstacle _ => .ok v

/-- Error message of the three `assert!`s in `Edge::execute_stage`. -/
def edge_grow_assert_msg : String := "assertion failed: edge growth out of range"

/-- Execute stage of an edge (`Edge::execute_stage`): on `Grow`, when the
two endpoints (read from the pre-stage state `s`) have different owners,
each side grows by its endpoint speed times the length, with the three
`assert!`s embedded as one error. -/
def Edge.execute_stage (s : DualModuleRTL) (e : Edge) (instruction : Instruction) :
    Except String Edge :=
  match instruction with
  | .Grow length =>
      let left_vertex := s.vertex_at e.left_index
      let right_vertex := s.vertex_at e.right_index
      if left_vertex.node_index ≠ right_vertex.node_index then
        let left_growth := e.left_growth + left_vertex.get_speed * length
        let right_growth := e.right_growth + right_vertex.get_speed * length
        if left_growth ≥ 0 ∧ right_growth ≥ 0 ∧ left_growth + right_growth ≤ e.weight then
          .ok { e with left_growth := left_growth, right_growth := right_growth }
        else .error edge_grow_assert_msg
      else .ok e
  | _ => .ok e

/-- The closure inside `Vertex::update_stage` applied to one incident edge
index: `some peer` when the peer side of the edge is fully grown and the
peer is growing, otherwise `none`. -/
def Vertex.propagating_choice (s : DualModuleRTL) (v : Vertex) (edge_index : Nat) :
    Option Vertex :=
  let edge := s.edge_at edge_index
  let peer_index := edge.get_peer v.vertex_index
  let peer := s.vertex_at peer_index
  if edge.is_tight_from peer_index ∧ peer.speed = .Grow then some peer else none

/-- The per-edge candidate list built inside `Vertex::update_stage`. -/
def Vertex.peer_candidates (s : DualModuleRTL) (v : Vertex) : List (Option Vertex) :=
  v.edge_indices.map (v.propagating_choice s)

/-- Iterator `reduce`: `none` on the empty list, otherwise a left fold of
the tail onto the head. -/
def listReduce (f : α → α → α) : List α → Option α
  | [] => none
  | x :: xs => some (xs.foldl f x)

/-- Update stage of a vertex (`Vertex::update_stage`): the source computes
`candidates.reduce(|a, b| a.or(b)).unwrap()` — fatal (`Option.none` here)
when the vertex has no incident edge — and then lets a non-defect,
non-virtual, zero-grown vertex inherit from the propagating peer, or relax
to `Stay` with no owner. -/
def Vertex.update_stage (s : DualModuleRTL) (v : Vertex) : Option Vertex :=
  match listReduce Option.or (v.peer_candidates s) with
  | none => none
  | some propagating_peer =>
      if v.is_defect = false ∧ v.is_virtual = false ∧ v.grown = 0 then
        match propagating_peer with
        | some peer =>
            some { v with node_index := peer.node_index,
                          root_index := peer.root_index,
                          speed := peer.speed }
        | none =>
            some { v with node_index := none, root_index := none, speed := .Stay }
      else some v

/-- Write stage of a vertex (`Vertex::write_stage`): early-returns `None`
unless shrinking, and the shrinking branch is also `None` in the source. -/
def Vertex.write_stage (v : Vertex) : Option Response :=
  if v.speed ≠ .Shrink then none else none

/-- Write stage of an edge (`Edge::write_stage`): the source returns `None`. -/
def Edge.write_stage (e : Edge) : Option Response :=
  none

/-- Traversal of a list under `Except`, stopping at the first error; this
embeds a Rust loop whose body can hit a fatal assertion. -/
def exceptTraverse (f : α → Except String β) : List α → Except String (List β)
  | [] => .ok []
  | x :: xs =>
    match f x with
    | .error e => .error e
    | .ok y =>
      match exceptTraverse f xs with
      | .error e => .error e
      | .ok ys => .ok (y :: ys)

/-- Traversal of a list under `Option`, `none` when any element maps to
`none`; this embeds a Rust loop whose body can hit a fatal `unwrap`. -/
def optionTraverse (f : α → Option β) : List α → Option (List β)
  | [] => some []
  | x :: xs =>
    match f x with
    | none => none
    | some y =>
      match optionTraverse f xs with
      | none => none
      | some ys => some (y :: ys)

/-- The execute-stage sweep of `pipeline_staged!`: every vertex and edge
computes its next register value from the same pre-stage snapshot. -/
def DualModuleRTL.execute_stage (s : DualModuleRTL) (instruction : Instruction) :
    Except String DualModuleRTL :=
  match exceptTraverse (fun v => v.execute_stage instruction) s.vertices with
  | .error e => .error e
  | .ok vertices =>
    match exceptTraverse (fun e => e.execute_stage s instruction) s.edges with
    | .error e => .error e
    | .ok edges => .ok { vertices := vertices, edges := edges }

/-- Error message for the fatal `unwrap` inside `Vertex::update_stage`. -/
def update_unwrap_msg : String := "update_stage: unwrap of reduce over empty edge list"

/-- The update-stage sweep of `pipeline_staged!` (the edge update stage is
a no-op in the source). -/
def DualModuleRTL.update_stage (s : DualModuleRTL) : Except String DualModuleRTL :=
  match optionTraverse (fun v => v.update_stage s) s.vertices with
  | none => .error update_unwrap_msg
  | some vertices => .ok { s with vertices := vertices }

/-- Translation of `DualModuleRTL::execute_instruction`: execute stage,
update stage, then the write-stage reduction — whose result the source
binds to `response` and then discards, returning `None` unconditionally. -/
def DualModuleRTL.execute_instruction (s : DualModuleRTL) (instruction : Instruction) :
    Except String (DualModuleRTL × Option Response) :=
  match s.execute_stage instruction with
  | .error e => .error e
  | .ok s1 =>
    match s1.update_stage with
    | .error e => .error e
    | .ok s2 =>
      let _response :=
        listReduce Response.reduce
          (s2.vertices.map Vertex.write_stage ++ s2.edges.map Edge.write_stage)
      .ok (s2, none)

/-- The solver initializer fields consumed by `DualModuleRTL::clear`. -/
structure SolverInitializer where
  vertex_num : Nat
  weighted_edges : List (Nat × Nat × Int)
  virtual_vertices : List Nat
deriving DecidableEq, Repr

/-- A fresh vertex as built in `DualModuleRTL::clear`. -/
def initialVertex (vertex_index : Nat) : Vertex :=
  { vertex_index := vertex_index, edge_indices := [], speed := .Stay, grown := 0,
    is_virtual := false, is_defect := false, node_index := none, root_index := none }

/-- Error message for out-of-bounds vertex indexing during `clear`. -/
def clear_index_msg : String := "clear: vertex index out of bounds"

/-- Error message of the `assert!(!vertex.edge_indices.is_empty())` in `clear`. -/
def clear_assert_msg : String := "assertion failed: vertex has no incident edge"

/-- Mark one vertex virtual (`self.vertices[virtual_vertex].is_virtual = true`);
out-of-bounds indexing is fatal in the source. -/
def setVirtual (vertices : List Vertex) (v : Nat) : Except String (List Vertex) :=
  if v < vertices.length then
    .ok (vertices.set v { (vertices.getD v Vertex.junk) with is_virtual := true })
  else .error clear_index_msg

/-- Append one weighted edge during `clear`: push the `Edge` and register
the edge index on both endpoints (fatal when an endpoint is out of bounds). -/
def addClearEdge (acc : List Vertex × List Edge) (entry : Nat × Nat × Nat × Int) :
    Except String (List Vertex × List Edge) :=
  let (edge_index, i, j, weight) := entry
  let (vertices, edges) := acc
  let edges := edges ++ [{ edge_index := edge_index, weight := weight, left_index := i,
                           right_index := j, left_growth := 0, right_growth := 0 : Edge }]
  if i < vertices.length ∧ j < vertices.length then
    let vertices := vertices.set i
      { (vertices.getD i Vertex.junk) with
        edge_indices := (vertices.getD i Vertex.junk).edge_indices ++ [edge_index] }
    let vertices := vertices.set j
      { (vertices.getD j Vertex.junk) with
        edge_indices := (vertices.getD j Vertex.junk).edge_indices ++ [edge_index] }
    .ok (vertices, edges)
  else .error clear_index_msg

/-- Fold of `Except` over a list, stopping at the first error. -/
def exceptFold (f : β → α → Except String β) : β → List α → Except String β
  | b, [] => .ok b
  | b, x :: xs =>
    match f b x with
    | .error e => .error e
    | .ok b1 => exceptFold f b1 xs

/-- Translation of `DualModuleRTL::clear` (also the body of `new_empty`):
build fresh vertices, mark virtual vertices, build edges and adjacency,
then assert every vertex has at least one incident edge. -/
def DualModuleRTL.clear (initializer : SolverInitializer) : Except String DualModuleRTL :=
  let vertices0 := (List.range initializer.vertex_num).map initialVertex
  match exceptFold setVirtual vertices0 initializer.virtual_vertices with
  | .error e => .error e
  | .ok vertices1 =>
    match exceptFold addClearEdge (vertices1, []) initializer.weighted_edges.enum with
    | .error e => .error e
    | .ok (vertices2, edges) =>
      if vertices2.all (fun v => !v.edge_indices.isEmpty) then
        .ok { vertices := vertices2, edges := edges }
      else .error clear_assert_msg

/-- Run a list of instructions through the pipeline, stopping at the first
fatal error; the per-instruction responses are discarded as in the driver. -/
def DualModuleRTL.run (s : DualModuleRTL) : List Instruction → Except String DualModuleRTL
  | [] => .ok s
  | i :: rest =>
    match s.execute_instruction i with
    | .error e => .error e
    | .ok (s1, _) => s1.run rest

end RTL

/-- Conversion `Weight::from(CompactGrowState)` (nostd `util.rs`, a dependency
of `dual_module_comb_edge.rs` not under `src/`; modelled from the spec §3
"speed ∈ −1, 0, +1, derived from the owning node's grow-state", matching
`Vertex::get_speed` of the RTL module). -/
def GrowState.toWeight : GrowState → Int
  | .Stay => 0
  | .Shrink => -1
  | .Grow => 1

namespace Comb

/-- Modelled from the spec: `CompactWeight::MAX`, the "saturation value
meaning no finite growth length from this source" (§6 Constants).
`CompactWeight` lives in the nostd `util.rs`, not under `src/`; the spec
says compact integers are "commonly 16-bit", so the maximum of a signed
16-bit value is used. -/
def CompactWeightMAX : Int := 32767

/-- Modelled from the spec: the minimum of `CompactWeight`, used only for
the fallibility bound of `try_into().unwrap()`. -/
def CompactWeightMIN : Int := -32768

/-- Modelled from the spec: `VIRTUAL_NODE_INDEX` (nostd `util.rs`, not under
`src/`), the numeric sentinel that `node_mapper` translates to absence —
"Virtual-vertex sentinel — represented as absence of node assignment"
(§6 Constants).  Its numeric value is irrelevant to the claims. -/
def VIRTUAL_NODE_INDEX : Nat := 65535

/-- The `node_mapper` closure inside `Edge::get_response`: a numeric node
index maps to itself unless it is the virtual sentinel, which maps to
absence. -/
def node_mapper (node_index : Nat) : Option Nat :=
  if node_index ≠ VIRTUAL_NODE_INDEX then some node_index else none

/-- The compact obstacle type returned by the combinational edge (enum
`CompactObstacle` of the nostd `interface.rs`; its four cases are given by
spec §6 "Obstacle type"). -/
inductive CompactObstacle where
  | None
  | GrowLength (length : Int)
  | Conflict (node_1 touch_1 : Option Nat) (vertex_1 : Nat)
             (node_2 touch_2 : Option Nat) (vertex_2 : Nat)
  | BlossomNeedExpand (blossom : Nat)
deriving DecidableEq, Repr

/-- The shadow node of a vertex, as consumed by `Edge::get_response` via
`get_shadow_node` (computed in `dual_module_comb.rs`, a caller dependency
outside `src/`; here it is an input). -/
structure ShadowNode where
  node_index : Option Nat
  root_index : Option Nat
  speed : GrowState
deriving DecidableEq, Repr

/-- The per-vertex signals `Edge::get_response` and `Edge::get_remaining`
read from the dual module: the post-update `grown` value and the shadow
node. -/
structure VertexView where
  grown : Int
  shadow : ShadowNode
deriving DecidableEq, Repr

/-- The slice of `DualModuleCombDriver` visible to one edge: whether the
current instruction is `FindObstacle`, and the per-vertex signals. -/
structure CombView where
  is_find_obstacle : Bool
  vertex_view : Nat → VertexView

/-- Combinational edge state (struct `Edge` in `dual_module_comb_edge.rs`;
`registers` holds only the weight, and the memoising `signals` cell is
transparent in a functional embedding). -/
structure Edge where
  edge_index : Nat
  weight : Int
  left_index : Nat
  right_index : Nat
deriving DecidableEq, Repr

/-- Translation of `Edge::get_remaining`: the edge weight minus the
post-update `grown` of both endpoints. -/
def Edge.get_remaining (view : Nat → VertexView) (e : Edge) : Int :=
  e.weight - (view e.left_index).grown - (view e.right_index).grown

/-- Message of the `assert!(remaining % joint_speed == 0, ...)` in
`Edge::get_response`. -/
def rounding_assert_msg (edge_index : Nat) : String :=
  "found a case where the reported maxGrowth is rounding down, edge " ++ toString edge_index

/-- Message of the fallible `(remaining / joint_speed).try_into().unwrap()`
in `Edge::get_response`. -/
def try_into_msg : String := "try_into unwrap failed: quotient out of CompactWeight range"

/-- Translation of `Edge::get_response`.  Integer division and remainder
use truncated semantics (`Int.tdiv`, `Int.tmod`) as in Rust. -/
def Edge.get_response (dual : CombView) (e : Edge) : Except String CompactObstacle :=
  if dual.is_find_obstacle = false then .ok .None
  else
    let left_shadow := (dual.vertex_view e.left_index).shadow
    let right_shadow := (dual.vertex_view e.right_index).shadow
    if left_shadow.node_index = right_shadow.node_index then
      .ok (.GrowLength CompactWeightMAX)
    else
      let joint_speed := left_shadow.speed.toWeight + right_shadow.speed.toWeight
      if joint_speed > 0 then
        let remaining := e.get_remaining dual.vertex_view
        if remaining = 0 then
          .ok (.Conflict (left_shadow.node_index.bind node_mapper)
                         (left_shadow.root_index.bind node_mapper)
                         e.left_index
                         (right_shadow.node_index.bind node_mapper)
                         (right_shadow.root_index.bind node_mapper)
                         e.right_index)
        else if remaining.tmod joint_speed ≠ 0 then
          .error (rounding_assert_msg e.edge_index)
        else if CompactWeightMIN ≤ remaining.tdiv joint_speed ∧
                remaining.tdiv joint_speed ≤ CompactWeightMAX then
          .ok (.GrowLength (remaining.tdiv joint_speed))
        else .error try_into_msg
      else .ok (.GrowLength CompactWeightMAX)

end Comb

namespace Primal

/-- Touching link record (struct `TouchingLink` of the nostd module; its
constructor `TouchingLink::new` is at the bottom of `primal_nodes.rs`). -/
structure TouchingLink where
  touch : Option Nat
  through : Option Nat
  peer_touch : Option Nat
  peer_through : Option Nat
deriving DecidableEq, Repr

/-- Translation of `TouchingLink::new`: all four fields absent. -/
def TouchingLink.new : TouchingLink :=
  { touch := none, through := none, peer_touch := none, peer_through := none }

/-- Translation of `TouchingLink::is_none`. -/
def TouchingLink.is_none (l : TouchingLink) : Bool :=
  l.touch.isNone && l.through.isNone && l.peer_touch.isNone && l.peer_through.isNone

/-- Primal node (struct `PrimalNode`): an inner node has `grow_state = none`. -/
structure PrimalNode where
  grow_state : Option GrowState
  parent : Option Nat
  first_child : Option Nat
  sibling : Option Nat
  link : TouchingLink
deriving DecidableEq, Repr

/-- Translation of `PrimalNode::new`: grow state `Grow`, everything else
absent. -/
def PrimalNode.new : PrimalNode :=
  { grow_state := some .Grow, parent := none, first_child := none,
    sibling := none, link := TouchingLink.new }

/-- Translation of `PrimalNode::is_outer_blossom`. -/
def PrimalNode.is_outer_blossom (n : PrimalNode) : Bool :=
  n.grow_state.isSome

/-- Translation of `PrimalNode::in_alternating_tree`. -/
def PrimalNode.in_alternating_tree (n : PrimalNode) : Bool :=
  n.parent.isSome || n.first_child.isSome

/-- Translation of `PrimalNode::is_free`. -/
def PrimalNode.is_free (n : PrimalNode) : Bool :=
  !n.in_alternating_tree && n.link.touch.isNone

/-- Translation of `PrimalNode::is_matched`. -/
def PrimalNode.is_matched (n : PrimalNode) : Bool :=
  !n.in_alternating_tree && n.link.touch.isSome

/-- Translation of `PrimalNode::remove_from_alternating_tree`. -/
def PrimalNode.remove_from_alternating_tree (n : PrimalNode) : PrimalNode :=
  { n with parent := none, first_child := none }

/-- Match target (enum `CompactMatchTarget` of the nostd `interface.rs`,
as used by `primal_nodes.rs`). -/
inductive CompactMatchTarget where
  | Peer (node : Nat)
  | VirtualVertex (vertex : Nat)
deriving DecidableEq, Repr

/-- Translation of `PrimalNode::get_matched`: a present sibling is a peer
match; otherwise a virtual match through `link.peer_through` (whose
absence is undefined behaviour via `usu!` in the source, embedded as
`Option.none`). -/
def PrimalNode.get_matched (n : PrimalNode) : Option CompactMatchTarget :=
  match n.sibling with
  | some node_index => some (.Peer node_index)
  | none => n.link.peer_through.map .VirtualVertex

/-- The primal node arena (struct `PrimalNodes<N, DOUBLE_N>`): the
fixed-size buffers are embedded as total maps from slot index; slots at or
beyond the capacity are never read by the translated operations under the
claims' hypotheses. -/
structure PrimalNodes (N : Nat) where
  buffer : Nat → Option PrimalNode
  first_blossom_child : Nat → Option Nat
  count_defects : Nat
  count_blossoms : Nat

/-- Translation of `PrimalNodes::new`. -/
def PrimalNodes.new (N : Nat) : PrimalNodes N :=
  { buffer := fun _ => none, first_blossom_child := fun _ => none,
    count_defects := 0, count_blossoms := 0 }

/-- Translation of `PrimalNodes::clear`: resets both counters only; buffer
contents become logically absent without being zeroed. -/
def PrimalNodes.clear (s : PrimalNodes N) : PrimalNodes N :=
  { s with count_defects := 0, count_blossoms := 0 }

/-- Translation of `PrimalNodes::has_node`. -/
def PrimalNodes.has_node (s : PrimalNodes N) (node_index : Nat) : Bool :=
  (s.buffer node_index).isSome

/-- Translation of `PrimalNodes::is_blossom` (release semantics: the
`debug_assert!`s on the index range are compiled out): a node index is a
blossom exactly when it is at least `N`. -/
def PrimalNodes.is_blossom (s : PrimalNodes N) (node_index : Nat) : Bool :=
  if node_index < N then false else true

/-- Translation of `PrimalNodes::prepare_defects_up_to`: when
`defect_index` is at or above `count_defects`, every slot from the old
count up to and including `defect_index` is actively set to absent (the
buffer may hold stale nodes from a previous episode) and the count is
raised to `defect_index + 1`. -/
def PrimalNodes.prepare_defects_up_to (s : PrimalNodes N) (defect_index : Nat) :
    PrimalNodes N :=
  if defect_index ≥ s.count_defects then
    { s with
      buffer := fun j =>
        if s.count_defects ≤ j ∧ j ≤ defect_index then none else s.buffer j,
      count_defects := defect_index + 1 }
  else s

/-- Translation of `PrimalNodes::check_node_index` (release semantics, std
build: the `hls` cfg branch is compiled out and the blossom-branch
`debug_assert!` is a no-op): a blossom index is left alone; a defect index
is prepared up to and its slot filled with `PrimalNode::new` when absent. -/
def PrimalNodes.check_node_index (s : PrimalNodes N) (node_index : Nat) : PrimalNodes N :=
  if s.is_blossom node_index then s
  else
    let s1 := s.prepare_defects_up_to node_index
    if (s1.buffer node_index).isNone then
      { s1 with buffer := fun j => if j = node_index then some PrimalNode.new else s1.buffer j }
    else s1

/-- Record of the grow states most recently forwarded to the dual module
through `DualInterface::set_grow_state`; the dual module itself is an
external trait object in `primal_nodes.rs`. -/
def DualRecord : Type := Nat → Option GrowState

/-- Mutation through `get_mut!`/`usu!` at one slot: an absent slot is
undefined behaviour in the source and is embedded as a no-op, unreachable
under the claims' `has_node` hypotheses. -/
def PrimalNodes.modify_node (s : PrimalNodes N) (node_index : Nat)
    (f : PrimalNode → PrimalNode) : PrimalNodes N :=
  { s with buffer := fun j => if j = node_index then (s.buffer j).map f else s.buffer j }

/-- Translation of `PrimalNodes::set_grow_state`: updates the primal record
and forwards the state to the dual module (recorded in the `DualRecord`). -/
def PrimalNodes.set_grow_state (s : PrimalNodes N) (dual : DualRecord)
    (node_index : Nat) (grow_state : GrowState) : PrimalNodes N × DualRecord :=
  (s.modify_node node_index (fun n => { n with grow_state := some grow_state }),
   fun j => if j = node_index then some grow_state else dual j)

/-- Translation of `PrimalNodes::temporary_match`: set both grow states to
`Stay` (forwarded to the dual), remove both from the alternating tree, link
them as mutual siblings, and record the touching link symmetrically. -/
def PrimalNodes.temporary_match (s : PrimalNodes N) (dual : DualRecord)
    (node_1 node_2 touch_1 touch_2 vertex_1 vertex_2 : Nat) :
    PrimalNodes N × DualRecord :=
  let sd1 := s.set_grow_state dual node_1 .Stay
  let sd2 := sd1.1.set_grow_state sd1.2 node_2 .Stay
  let s3 := sd2.1.modify_node node_1 fun n =>
    let n := n.remove_from_alternating_tree
    { n with sibling := some node_2,
             link := { touch := some touch_1, through := some vertex_1,
                       peer_touch := some touch_2, peer_through := some vertex_2 } }
  let s4 := s3.modify_node node_2 fun n =>
    let n := n.remove_from_alternating_tree
    { n with sibling := some node_1,
             link := { touch := some touch_2, through := some vertex_2,
                       peer_touch := some touch_1, peer_through := some vertex_1 } }
  (s4, sd2.2)

/-- Translation of `PrimalNodes::temporary_match_virtual_vertex`: the
analogue of `temporary_match` for a virtual boundary touch — sibling
absent, `peer_touch` absent, `peer_through` the virtual vertex. -/
def PrimalNodes.temporary_match_virtual_vertex (s : PrimalNodes N) (dual : DualRecord)
    (node touch vertex virtual_vertex : Nat) : PrimalNodes N × DualRecord :=
  let sd1 := s.set_grow_state dual node .Stay
  let s2 := sd1.1.modify_node node fun n =>
    let n := n.remove_from_alternating_tree
    { n with sibling := none,
             link := { touch := some touch, through := some vertex,
                       peer_touch := none, peer_through := some virtual_vertex } }
  (s2, sd1.2)

/-- Message of the `debug_assert!(self.count_blossoms < N, "blossom
overflow")` in `allocate_blossom`; spec §7 classifies capacity exhaustion
as fatal, and past the assertion the source's fixed-size array write at
slot `N + count_blossoms` is itself a fatal bounds failure. -/
def blossom_overflow_msg : String := "blossom overflow"

/-- Translation of `PrimalNodes::allocate_blossom`: under the capacity
contract, writes a fresh node at slot `N + count_blossoms`, records the
first blossom child, bumps the counter, and returns the new ID (computed
before the bump). -/
def PrimalNodes.allocate_blossom (s : PrimalNodes N) (fst_child : Nat) :
    Except String (PrimalNodes N × Nat) :=
  if s.count_blossoms < N then
    let blossom_index := N + s.count_blossoms
    .ok ({ s with
           buffer := fun j =>
             if j = blossom_index then some PrimalNode.new else s.buffer j,
           first_blossom_child := fun j =>
             if j = s.count_blossoms then some fst_child else s.first_blossom_child j,
           count_blossoms := s.count_blossoms + 1 },
         blossom_index)
  else .error blossom_overflow_msg

/-- The visiting order of `iterate_intermediate_matching`:
`(0..count_defects).chain(N..N + count_blossoms)`. -/
def PrimalNodes.visit_order (s : PrimalNodes N) : List Nat :=
  List.range s.count_defects ++ (List.range s.count_blossoms).map (fun i => N + i)

/-- One loop iteration of `iterate_intermediate_matching` at slot `index`:
`none` when the slot is skipped (absent slot, non-outer node, or a peer
match whose peer has the smaller ID).  The virtual branch reads
`usu!(node.link.peer_through)` — undefined behaviour when absent — embedded
as a skip, unreachable under the `is_matched` debug contract. -/
def PrimalNodes.intermediate_entry (s : PrimalNodes N) (index : Nat) :
    Option (Nat × CompactMatchTarget × TouchingLink) :=
  match s.buffer index with
  | none => none
  | some node =>
    if node.is_outer_blossom = false then none
    else
      match node.sibling with
      | some peer_index =>
          if index < peer_index then some (index, .Peer peer_index, node.link) else none
      | none => node.link.peer_through.map fun v => (index, .VirtualVertex v, node.link)

/-- Translation of `PrimalNodes::iterate_intermediate_matching`: the
sequence of `func(node_index, match_target, link)` calls, in visiting
order. -/
def PrimalNodes.iterate_intermediate_matching (s : PrimalNodes N) :
    List (Nat × CompactMatchTarget × TouchingLink) :=
  s.visit_order.filterMap s.intermediate_entry

end Primal

/-! Derived definitions and concrete instances used by the theorems below. -/

/-- The propagating-peer condition of `Vertex::update_stage` for one
incident edge: the peer side of the edge is fully grown and the peer's
speed is `Grow`. -/
def RTL.Vertex.propagates (s : RTL.DualModuleRTL) (v : RTL.Vertex) (edge_index : Nat) : Prop :=
  (s.edge_at edge_index).is_tight_from ((s.edge_at edge_index).get_peer v.vertex_index) = true ∧
  (s.vertex_at ((s.edge_at edge_index).get_peer v.vertex_index)).speed = .Grow

instance (s : RTL.DualModuleRTL) (v : RTL.Vertex) (i : Nat) :
    Decidable (RTL.Vertex.propagates s v i) := by
  unfold RTL.Vertex.propagates
  infer_instance

/-- Dual feasibility (spec §3 invariant 4): every vertex has a non-negative
dual value and every edge's two side growths are non-negative with sum at
most the weight. -/
def RTL.feasible (s : RTL.DualModuleRTL) : Prop :=
  (∀ v ∈ s.vertices, 0 ≤ v.grown) ∧
  (∀ e ∈ s.edges, 0 ≤ e.left_growth ∧ 0 ≤ e.right_growth ∧
    e.left_growth + e.right_growth ≤ e.weight)

/-- The growth permitted by the current state (the bound behind the spec
§4.G contract that `grow(length)` "must equal the last reported
`GrowLength` or less"): the length is at most every shrinking vertex's
dual value, and on every edge whose endpoints have different owners, at
most each shrinking side's growth and at most the remaining slack divided
by a positive joint speed. -/
def RTL.growth_permitted (s : RTL.DualModuleRTL) (length : Int) : Prop :=
  (∀ v ∈ s.vertices, v.speed = .Shrink → length ≤ v.grown) ∧
  (∀ e ∈ s.edges,
    (s.vertex_at e.left_index).node_index ≠ (s.vertex_at e.right_index).node_index →
      ((s.vertex_at e.left_index).speed = .Shrink → length ≤ e.left_growth) ∧
      ((s.vertex_at e.right_index).speed = .Shrink → length ≤ e.right_growth) ∧
      (0 < (s.vertex_at e.left_index).get_speed + (s.vertex_at e.right_index).get_speed →
        ((s.vertex_at e.left_index).get_speed + (s.vertex_at e.right_index).get_speed) * length
          ≤ e.weight - e.left_growth - e.right_growth))

/-- An intermediate-matching report mentions node `i` when `i` is the
reporting end or the named peer. -/
def Primal.mentions (i : Nat) (e : Nat × Primal.CompactMatchTarget × Primal.TouchingLink) :
    Prop :=
  e.1 = i ∨ e.2.1 = Primal.CompactMatchTarget.Peer i

/-- Slot `i` is visited by `iterate_intermediate_matching`: a defect slot
below the defect count or a blossom slot below the blossom count. -/
def Primal.in_range {N : Nat} (s : Primal.PrimalNodes N) (i : Nat) : Prop :=
  i < s.count_defects ∨ (N ≤ i ∧ i < N + s.count_blossoms)

/-- A combinational view whose two endpoints share the outer owner. -/
def Comb.c2View : Comb.CombView :=
  { is_find_obstacle := true,
    vertex_view := fun _ =>
      { grown := 1, shadow := { node_index := some 3, root_index := some 3, speed := .Grow } } }

/-- A small concrete edge for the C2 witness. -/
def Comb.c2Edge : Comb.Edge :=
  { edge_index := 0, weight := 4, left_index := 0, right_index := 1 }

/-- A combinational view with distinct owners, joint speed 2, and remaining
weight 3 on `c3Edge` — so the joint speed does not divide the remaining
weight. -/
def Comb.c3View : Comb.CombView :=
  { is_find_obstacle := true,
    vertex_view := fun i =>
      if i = 0 then
        { grown := 0, shadow := { node_index := some 1, root_index := some 1, speed := .Grow } }
      else
        { grown := 0, shadow := { node_index := some 2, root_index := some 2, speed := .Grow } } }

/-- Odd-weight edge between vertices 0 and 1. -/
def Comb.c3Edge : Comb.Edge :=
  { edge_index := 7, weight := 3, left_index := 0, right_index := 1 }

/-- Concrete arena for the C7 witness: a fresh arena of capacity 4. -/
def Primal.c7State : Primal.PrimalNodes 4 := Primal.PrimalNodes.new 4

/-- An arena of capacity 2 whose blossom slots are exhausted. -/
def Primal.c8FullState : Primal.PrimalNodes 2 :=
  { buffer := fun _ => none, first_blossom_child := fun _ => none,
    count_defects := 0, count_blossoms := 2 }

/-- A two-defect arena for the C6 witness. -/
def Primal.c6State : Primal.PrimalNodes 4 :=
  ((Primal.PrimalNodes.new 4).check_node_index 0).check_node_index 1

/-- Defect node 0 of the C5 witness arena, temporarily matched to node 1. -/
def Primal.c5Node0 : Primal.PrimalNode :=
  { grow_state := some .Stay, parent := none, first_child := none, sibling := some 1,
    link := { touch := some 0, through := some 10, peer_touch := some 1, peer_through := some 11 } }

/-- Defect node 1 of the C5 witness arena, temporarily matched to node 0. -/
def Primal.c5Node1 : Primal.PrimalNode :=
  { grow_state := some .Stay, parent := none, first_child := none, sibling := some 0,
    link := { touch := some 1, through := some 11, peer_touch := some 0, peer_through := some 10 } }

/-- The C5 witness arena: capacity 2, two mutually matched defects. -/
def Primal.c5State : Primal.PrimalNodes 2 :=
  { buffer := fun j =>
      if j = 0 then some Primal.c5Node0 else if j = 1 then some Primal.c5Node1 else none,
    first_blossom_child := fun _ => none, count_defects := 2, count_blossoms := 0 }

/-- A fully-grown-from-the-right edge for the C4 witness. -/
def RTL.c4Edge : RTL.Edge :=
  { edge_index := 0, weight := 1, left_index := 0, right_index := 1,
    left_growth := 0, right_growth := 1 }

/-- A growing defect peer for the C4 witness. -/
def RTL.c4Peer : RTL.Vertex :=
  { vertex_index := 1, edge_indices := [0], speed := .Grow, grown := 1,
    is_virtual := false, is_defect := true, node_index := some 5, root_index := some 5 }

/-- A zero-grown non-defect vertex for the C4 witness. -/
def RTL.c4Vertex : RTL.Vertex :=
  { vertex_index := 0, edge_indices := [0], speed := .Stay, grown := 0,
    is_virtual := false, is_defect := false, node_index := none, root_index := none }

/-- The two-vertex one-edge RTL state for the C4 witness. -/
def RTL.c4State : RTL.DualModuleRTL :=
  { vertices := [RTL.c4Vertex, RTL.c4Peer], edges := [RTL.c4Edge] }

/-- A concrete solver initializer: two vertices joined by one edge of
weight 2, vertex 1 virtual. -/
def RTL.c10Init : RTL.SolverInitializer :=
  { vertex_num := 2, weighted_edges := [(0, 1, 2)], virtual_vertices := [1] }

/-- The state `clear` builds from `c10Init`. -/
def RTL.c10State : RTL.DualModuleRTL :=
  (RTL.DualModuleRTL.clear RTL.c10Init).toOption.getD { vertices := [], edges := [] }

/-- The concrete result of one `FindObstacle` on the C4 state. -/
def RTL.c1Out : RTL.DualModuleRTL × Option RTL.Response :=
  (RTL.c4State.execute_instruction (.FindObstacle 0)).toOption.getD (RTL.c4State, none)

/-- A feasible two-vertex state with slack 2 on its single edge, for the
C9 witness. -/
def RTL.c9State : RTL.DualModuleRTL :=
  { vertices := [RTL.c4Vertex, RTL.c4Peer],
    edges := [{ edge_index := 0, weight := 3, left_index := 0, right_index := 1,
                left_growth := 0, right_growth := 1 }] }

/-! Theorems settling the claims. -/

section ClaimC2

open Comb

/-- C2: for every edge and every FindObstacle instruction, the emitted
response is: `GrowLength CompactWeight::MAX` when the outer owners (shadow
node indices) of the two endpoints are equal; with different owners and
positive joint speed, a `Conflict` naming both outer nodes, both inner
touching nodes and both incident vertices (absent meaning virtual) when the
remaining weight is 0, and otherwise any emitted response is
`GrowLength (remaining / joint_speed)`; and `GrowLength CompactWeight::MAX`
when the joint speed is not positive. -/
theorem C2_edge_response (dual : CombView) (e : Comb.Edge)
    (hfind : dual.is_find_obstacle = true) :
    (((dual.vertex_view e.left_index).shadow.node_index =
        (dual.vertex_view e.right_index).shadow.node_index →
      e.get_response dual = .ok (.GrowLength CompactWeightMAX)) ∧
     ((dual.vertex_view e.left_index).shadow.node_index ≠
        (dual.vertex_view e.right_index).shadow.node_index →
      0 < (dual.vertex_view e.left_index).shadow.speed.toWeight +
          (dual.vertex_view e.right_index).shadow.speed.toWeight →
      e.get_remaining dual.vertex_view = 0 →
      e.get_response dual = .ok (.Conflict
        ((dual.vertex_view e.left_index).shadow.node_index.bind node_mapper)
        ((dual.vertex_view e.left_index).shadow.root_index.bind node_mapper)
        e.left_index
        ((dual.vertex_view e.right_index).shadow.node_index.bind node_mapper)
        ((dual.vertex_view e.right_index).shadow.root_index.bind node_mapper)
        e.right_index)) ∧
     ((dual.vertex_view e.left_index).shadow.node_index ≠
        (dual.vertex_view e.right_index).shadow.node_index →
      0 < (dual.vertex_view e.left_index).shadow.speed.toWeight +
          (dual.vertex_view e.right_index).shadow.speed.toWeight →
      e.get_remaining dual.vertex_view ≠ 0 →
      ∀ r, e.get_response dual = .ok r →
        r = .GrowLength ((e.get_remaining dual.vertex_view).tdiv
              ((dual.vertex_view e.left_index).shadow.speed.toWeight +
               (dual.vertex_view e.right_index).shadow.speed.toWeight))) ∧
     ((dual.vertex_view e.left_index).shadow.node_index ≠
        (dual.vertex_view e.right_index).shadow.node_index →
      ¬ 0 < (dual.vertex_view e.left_index).shadow.speed.toWeight +
            (dual.vertex_view e.right_index).shadow.speed.toWeight →
      e.get_response dual = .ok (.GrowLength CompactWeightMAX))) := by
  unfold Comb.Edge.get_response
  rw [hfind]
  have htf : ¬ (true = false) := by decide
  refine ⟨fun h => ?_, fun hne hj hr => ?_, fun hne hj hr r hok => ?_, fun hne hj => ?_⟩
  · simp only [if_neg htf, if_pos h]
  · simp only [if_neg htf, if_neg hne, if_pos hj, if_pos hr]
  · simp only [if_neg htf, if_neg hne, if_pos hj, if_neg hr] at hok
    by_cases hmod :
        (e.get_remaining dual.vertex_view).tmod
          ((dual.vertex_view e.left_index).shadow.speed.toWeight +
           (dual.vertex_view e.right_index).shadow.speed.toWeight) ≠ 0
    · rw [if_pos hmod] at hok
      exact absurd hok (by simp)
    · rw [if_neg hmod] at hok
      by_cases hfit :
          CompactWeightMIN ≤ (e.get_remaining dual.vertex_view).tdiv
            ((dual.vertex_view e.left_index).shadow.speed.toWeight +
             (dual.vertex_view e.right_index).shadow.speed.toWeight) ∧
          (e.get_remaining dual.vertex_view).tdiv
            ((dual.vertex_view e.left_index).shadow.speed.toWeight +
             (dual.vertex_view e.right_index).shadow.speed.toWeight) ≤ CompactWeightMAX
      · rw [if_pos hfit] at hok
        exact (Except.ok.inj hok).symm
      · rw [if_neg hfit] at hok
        exact absurd hok (by simp)
  · simp only [if_neg htf, if_neg hne, if_neg hj]

/-- C2 witness: on a concrete edge whose endpoints share their outer owner,
the response is the saturating `GrowLength`. -/
theorem C2_edge_response_witness :
    c2Edge.get_response c2View = .ok (.GrowLength CompactWeightMAX) :=
  (C2_edge_response c2View c2Edge (by rfl)).1 (by rfl)

end ClaimC2

section ClaimC3

open Comb

/-- C3 counterexample: with different owners, joint speed 2 and remaining
3, the edge does not report the floor `GrowLength 1`; instead the
divisibility assertion fires and `get_response` fails fatally. -/
theorem C3_counterexample :
    c3Edge.get_response c3View = .error (rounding_assert_msg 7) ∧
    c3Edge.get_response c3View ≠ .ok (.GrowLength 1) := by
  constructor
  · rfl
  · intro h
    rw [show c3Edge.get_response c3View = .error (rounding_assert_msg 7) from rfl] at h
    exact absurd h (by simp)

/-- C3 amended: for every edge whose endpoints have different outer owners,
positive joint speed and nonzero remaining weight, if the joint speed does
not divide the remaining weight then `get_response` fails the
`remaining % joint_speed == 0` assertion (fatal), rather than reporting a
rounded-down `GrowLength`; a `GrowLength` is reported only on exact
division. -/
theorem C3_exactness_assertion (dual : CombView) (e : Comb.Edge)
    (hfind : dual.is_find_obstacle = true)
    (hne : (dual.vertex_view e.left_index).shadow.node_index ≠
           (dual.vertex_view e.right_index).shadow.node_index)
    (hj : 0 < (dual.vertex_view e.left_index).shadow.speed.toWeight +
              (dual.vertex_view e.right_index).shadow.speed.toWeight)
    (hr : e.get_remaining dual.vertex_view ≠ 0)
    (hmod : (e.get_remaining dual.vertex_view).tmod
              ((dual.vertex_view e.left_index).shadow.speed.toWeight +
               (dual.vertex_view e.right_index).shadow.speed.toWeight) ≠ 0) :
    e.get_response dual = .error (rounding_assert_msg e.edge_index) := by
  unfold Comb.Edge.get_response
  rw [hfind]
  simp only [if_neg (show ¬ (true = false) by decide), if_neg hne, if_pos hj, if_neg hr,
    if_pos hmod]

/-- C3 witness for the amended theorem, at the counterexample input. -/
theorem C3_exactness_assertion_witness :
    c3Edge.get_response c3View = .error (rounding_assert_msg 7) :=
  C3_exactness_assertion c3View c3Edge (by rfl) (by decide) (by decide) (by decide) (by decide)

end ClaimC3

section ClaimC7

open Primal

/-- C7: for every defect index `id < N`, `check_node_index` leaves a
present slot below the old count unchanged, fills an absent slot with the
default `PrimalNode::new` (grow state `Grow`, everything else empty),
raises `count_defects` to `id + 1` exactly when `id` was at or above the
old count, leaves the intermediate slots `[old count, id)` absent, and
touches nothing else. -/
theorem C7_touch_defect (N : Nat) (s : PrimalNodes N) (id : Nat) (h : id < N) :
    ((s.check_node_index id).buffer id =
        (if id < s.count_defects ∧ (s.buffer id).isSome then s.buffer id
         else some PrimalNode.new)) ∧
    (s.check_node_index id).has_node id = true ∧
    ((s.check_node_index id).count_defects =
        (if s.count_defects ≤ id then id + 1 else s.count_defects)) ∧
    (∀ j, s.count_defects ≤ j → j < id → (s.check_node_index id).buffer j = none) ∧
    (∀ j, j < s.count_defects → j ≠ id → (s.check_node_index id).buffer j = s.buffer j) ∧
    (∀ j, id < j → (s.check_node_index id).buffer j = s.buffer j) ∧
    (s.check_node_index id).count_blossoms = s.count_blossoms ∧
    PrimalNode.new.grow_state = some GrowState.Grow ∧
    PrimalNode.new.parent = none ∧ PrimalNode.new.first_child = none ∧
    PrimalNode.new.sibling = none ∧ PrimalNode.new.link = TouchingLink.new := by
  have hib : ¬ (s.is_blossom id = true) := by
    simp [PrimalNodes.is_blossom, h]
  refine ⟨?_, ?_, ?_, fun j hle hlt => ?_, fun j hlt hne => ?_, fun j hgt => ?_, ?_,
    rfl, rfl, rfl, rfl, rfl⟩ <;>
    simp only [PrimalNodes.check_node_index, PrimalNodes.prepare_defects_up_to,
      PrimalNodes.has_node, if_neg hib, ge_iff_le] <;>
    split_ifs <;>
    (try simp_all [Option.isSome_iff_ne_none]) <;>
    (try split_ifs) <;>
    (try simp_all) <;>
    (try omega)

/-- C7 witness: touching defect 2 of an empty capacity-4 arena creates the
default node at slot 2 and raises the defect count to 3, leaving slots 0
and 1 absent. -/
theorem C7_touch_defect_witness :
    (c7State.check_node_index 2).buffer 2 = some PrimalNode.new ∧
    (c7State.check_node_index 2).count_defects = 3 :=
  have h := C7_touch_defect 4 c7State 2 (by decide)
  ⟨by rw [h.1]; decide, by rw [h.2.2.1]; decide⟩

end ClaimC7

section ClaimC8

open Primal

/-- C8: every successful `allocate_blossom` writes a fresh node at slot
`N + count_blossoms`, records the first blossom child, bumps the counter
and returns ID `N + count_blossoms` (a blossom ID); a call with
`count_blossoms < N` succeeds, and a call with `count_blossoms = N` fails
fatally instead of writing. -/
theorem C8_allocate_blossom (N : Nat) (s : PrimalNodes N) (fst_child : Nat) :
    (∀ s1 id, s.allocate_blossom fst_child = .ok (s1, id) →
       id = N + s.count_blossoms ∧
       s1.buffer id = some PrimalNode.new ∧
       s1.first_blossom_child s.count_blossoms = some fst_child ∧
       s1.count_blossoms = s.count_blossoms + 1 ∧
       s1.count_defects = s.count_defects ∧
       s1.is_blossom id = true ∧
       (∀ j, j ≠ id → s1.buffer j = s.buffer j) ∧
       (∀ j, j ≠ s.count_blossoms → s1.first_blossom_child j = s.first_blossom_child j)) ∧
    (s.count_blossoms < N → ∃ p, s.allocate_blossom fst_child = .ok p) ∧
    (s.count_blossoms = N → s.allocate_blossom fst_child = .error blossom_overflow_msg) := by
  refine ⟨fun s1 id hok => ?_, fun hlt => ?_, fun heq => ?_⟩
  · unfold PrimalNodes.allocate_blossom at hok
    by_cases hlt : s.count_blossoms < N
    · rw [if_pos hlt] at hok
      have hp := Except.ok.inj hok
      rw [Prod.mk.injEq] at hp
      obtain ⟨hs1, hid⟩ := hp
      subst hs1
      subst hid
      refine ⟨rfl, by simp, by simp, rfl, rfl, ?_, ?_, ?_⟩
      · simp only [PrimalNodes.is_blossom]
        rw [if_neg (by omega)]
      · intro j hj
        simp [if_neg hj]
      · intro j hj
        simp [if_neg hj]
    · rw [if_neg hlt] at hok
      exact absurd hok (by simp)
  · refine ⟨({ s with
        buffer := fun j =>
          if j = N + s.count_blossoms then some PrimalNode.new else s.buffer j,
        first_blossom_child := fun j =>
          if j = s.count_blossoms then some fst_child else s.first_blossom_child j,
        count_blossoms := s.count_blossoms + 1 }, N + s.count_blossoms), ?_⟩
    unfold PrimalNodes.allocate_blossom
    rw [if_pos hlt]
  · unfold PrimalNodes.allocate_blossom
    rw [if_neg (by omega)]

/-- C8 witness: allocating in the exhausted capacity-2 arena fails fatally,
and allocating in a fresh capacity-2 arena does not. -/
theorem C8_allocate_blossom_witness :
    c8FullState.allocate_blossom 0 = .error blossom_overflow_msg ∧
    (PrimalNodes.new 2).allocate_blossom 5 ≠ .error blossom_overflow_msg := by
  constructor
  · exact (C8_allocate_blossom 2 c8FullState 0).2.2 rfl
  · obtain ⟨p, hp⟩ := (C8_allocate_blossom 2 (PrimalNodes.new 2) 5).2.1 (by decide)
    rw [hp]
    simp

end ClaimC8

section ClaimC6

open Primal

/-- C6: `temporary_match` on distinct present outer nodes removes both from
any alternating tree, sets both grow states to `Stay` (forwarded to the
dual module), links them as mutual siblings, records the touching link
symmetrically, leaves everything else unchanged, and afterwards both nodes
are matched with `get_matched` returning the peer. -/
theorem C6_temporary_match (N : Nat) (s : PrimalNodes N) (dual : DualRecord)
    (node_1 node_2 touch_1 touch_2 vertex_1 vertex_2 : Nat)
    (hne : node_1 ≠ node_2)
    (h1 : s.has_node node_1 = true) (h2 : s.has_node node_2 = true) :
    (s.temporary_match dual node_1 node_2 touch_1 touch_2 vertex_1 vertex_2).1.buffer node_1 =
      some { grow_state := some .Stay, parent := none, first_child := none,
             sibling := some node_2,
             link := { touch := some touch_1, through := some vertex_1,
                       peer_touch := some touch_2, peer_through := some vertex_2 } } ∧
    (s.temporary_match dual node_1 node_2 touch_1 touch_2 vertex_1 vertex_2).1.buffer node_2 =
      some { grow_state := some .Stay, parent := none, first_child := none,
             sibling := some node_1,
             link := { touch := some touch_2, through := some vertex_2,
                       peer_touch := some touch_1, peer_through := some vertex_1 } } ∧
    (s.temporary_match dual node_1 node_2 touch_1 touch_2 vertex_1 vertex_2).2 node_1 =
      some .Stay ∧
    (s.temporary_match dual node_1 node_2 touch_1 touch_2 vertex_1 vertex_2).2 node_2 =
      some .Stay ∧
    (∀ j, j ≠ node_1 → j ≠ node_2 →
      (s.temporary_match dual node_1 node_2 touch_1 touch_2 vertex_1 vertex_2).1.buffer j =
        s.buffer j) ∧
    (∀ j, j ≠ node_1 → j ≠ node_2 →
      (s.temporary_match dual node_1 node_2 touch_1 touch_2 vertex_1 vertex_2).2 j = dual j) ∧
    ({ grow_state := some .Stay, parent := none, first_child := none,
       sibling := some node_2,
       link := { touch := some touch_1, through := some vertex_1,
                 peer_touch := some touch_2, peer_through := some vertex_2 } :
       PrimalNode }).is_matched = true ∧
    ({ grow_state := some .Stay, parent := none, first_child := none,
       sibling := some node_2,
       link := { touch := some touch_1, through := some vertex_1,
                 peer_touch := some touch_2, peer_through := some vertex_2 } :
       PrimalNode }).get_matched = some (.Peer node_2) ∧
    ({ grow_state := some .Stay, parent := none, first_child := none,
       sibling := some node_1,
       link := { touch := some touch_2, through := some vertex_2,
                 peer_touch := some touch_1, peer_through := some vertex_1 } :
       PrimalNode }).is_matched = true ∧
    ({ grow_state := some .Stay, parent := none, first_child := none,
       sibling := some node_1,
       link := { touch := some touch_2, through := some vertex_2,
                 peer_touch := some touch_1, peer_through := some vertex_1 } :
       PrimalNode }).get_matched = some (.Peer node_1) := by
  obtain ⟨n1, hn1⟩ := Option.isSome_iff_exists.mp h1
  obtain ⟨n2, hn2⟩ := Option.isSome_iff_exists.mp h2
  have hne2 : node_2 ≠ node_1 := Ne.symm hne
  refine ⟨?_, ?_, ?_, ?_, fun j hj1 hj2 => ?_, fun j hj1 hj2 => ?_, rfl, rfl, rfl, rfl⟩ <;>
    simp_all [PrimalNodes.temporary_match, PrimalNodes.set_grow_state,
      PrimalNodes.modify_node, PrimalNode.remove_from_alternating_tree]

/-- C6 witness: matching defects 0 and 1 of a concrete arena makes them
mutual siblings with `Stay` forwarded to the dual module. -/
theorem C6_temporary_match_witness :
    ((c6State.temporary_match (fun _ => none) 0 1 0 1 10 11).1.buffer 0 =
      some { grow_state := some .Stay, parent := none, first_child := none,
             sibling := some 1,
             link := { touch := some 0, through := some 10,
                       peer_touch := some 1, peer_through := some 11 } }) ∧
    ((c6State.temporary_match (fun _ => none) 0 1 0 1 10 11).2 0 = some .Stay) := by
  have h := C6_temporary_match 4 c6State (fun _ => none) 0 1 0 1 10 11
    (by decide) (by decide) (by decide)
  exact ⟨h.1, h.2.2.1⟩

end ClaimC6

section ClaimC4

open RTL

/-- A left fold of `Option.or` equals the seed or-ed with the first
present element. -/
lemma foldl_or_eq {α : Type} (x : Option α) (l : List (Option α)) :
    l.foldl Option.or x = x.or (l.findSome? id) := by
  induction l generalizing x with
  | nil => simp [Option.or_none]
  | cons y ys ih =>
      simp only [List.foldl_cons, ih]
      cases y with
      | none => simp [List.findSome?_cons]
      | some a => simp [List.findSome?_cons, Option.or_assoc]

/-- The iterator `reduce(|a, b| a.or(b))` over a nonempty list of options
returns the first present element (wrapped in the reduce's own `some`). -/
lemma listReduce_or_eq {α : Type} (l : List (Option α)) (h : l ≠ []) :
    listReduce Option.or l = some (l.findSome? id) := by
  cases l with
  | nil => exact absurd rfl h
  | cons x xs =>
      simp only [listReduce, foldl_or_eq, List.findSome?_cons]
      cases x <;> simp

/-- The update-stage closure, phrased by the propagating condition. -/
lemma propagating_choice_eq (s : DualModuleRTL) (v : Vertex) (i : Nat) :
    v.propagating_choice s i =
      if v.propagates s i then some (s.vertex_at ((s.edge_at i).get_peer v.vertex_index))
      else none := by
  unfold Vertex.propagating_choice Vertex.propagates
  rfl

/-- Closed form of `Vertex::update_stage` on a vertex with at least one
incident edge. -/
lemma update_stage_eq (s : DualModuleRTL) (v : Vertex) (hne : v.edge_indices ≠ []) :
    v.update_stage s =
      some (if v.is_defect = false ∧ v.is_virtual = false ∧ v.grown = 0 then
              match v.edge_indices.findSome? (v.propagating_choice s) with
              | some peer => { v with node_index := peer.node_index,
                                      root_index := peer.root_index, speed := peer.speed }
              | none => { v with node_index := none, root_index := none, speed := .Stay }
            else v) := by
  unfold Vertex.update_stage
  have hcand : v.peer_candidates s ≠ [] := by
    simp [Vertex.peer_candidates, hne]
  rw [listReduce_or_eq _ hcand]
  simp only [Vertex.peer_candidates, List.findSome?_map]
  have hid : (id ∘ v.propagating_choice s) = v.propagating_choice s := rfl
  rw [hid]
  split_ifs with hcond
  · cases v.edge_indices.findSome? (v.propagating_choice s) <;> rfl
  · rfl

/-- C4: in the update stage, a non-defect, non-virtual, zero-grown vertex
with a propagating peer (an incident edge whose peer side is fully grown
and whose peer is growing) inherits that peer's `node_index`, `root_index`
and speed; with no propagating peer it relaxes to `Stay` with no owner;
every other vertex is unchanged.  (The update stage runs on every
instruction and does not read the instruction.) -/
theorem C4_update_stage (s : DualModuleRTL) (v : Vertex) (hne : v.edge_indices ≠ []) :
    ∃ v1, v.update_stage s = some v1 ∧
      ((v.is_defect = false ∧ v.is_virtual = false ∧ v.grown = 0 →
        ((∃ i ∈ v.edge_indices, v.propagates s i) →
          ∃ i ∈ v.edge_indices, v.propagates s i ∧
            v1 = { v with
              node_index := (s.vertex_at ((s.edge_at i).get_peer v.vertex_index)).node_index,
              root_index := (s.vertex_at ((s.edge_at i).get_peer v.vertex_index)).root_index,
              speed := (s.vertex_at ((s.edge_at i).get_peer v.vertex_index)).speed }) ∧
        ((∀ i ∈ v.edge_indices, ¬ v.propagates s i) →
          v1 = { v with node_index := none, root_index := none, speed := .Stay })) ∧
      (¬ (v.is_defect = false ∧ v.is_virtual = false ∧ v.grown = 0) → v1 = v)) := by
  have heq := update_stage_eq s v hne
  by_cases hcond : v.is_defect = false ∧ v.is_virtual = false ∧ v.grown = 0
  · rw [if_pos hcond] at heq
    cases hfs : v.edge_indices.findSome? (v.propagating_choice s) with
    | some peer =>
        rw [hfs] at heq
        have heq2 : v.update_stage s =
            some { v with node_index := peer.node_index,
                          root_index := peer.root_index, speed := peer.speed } := heq
        obtain ⟨i, hi, hci⟩ := List.exists_of_findSome?_eq_some hfs
        rw [propagating_choice_eq] at hci
        by_cases hp : v.propagates s i
        · rw [if_pos hp] at hci
          refine ⟨_, heq2, fun _ => ⟨fun _ => ⟨i, hi, hp, ?_⟩,
            fun hall => absurd hp (hall i hi)⟩, fun hc => absurd hcond hc⟩
          rw [Option.some.inj hci]
        · rw [if_neg hp] at hci
          exact absurd hci (by simp)
    | none =>
        rw [hfs] at heq
        have heq2 : v.update_stage s =
            some { v with node_index := none, root_index := none, speed := .Stay } := heq
        have hall : ∀ i ∈ v.edge_indices, ¬ v.propagates s i := by
          intro i hi hp
          have hnone := List.findSome?_eq_none_iff.mp hfs i hi
          rw [propagating_choice_eq, if_pos hp] at hnone
          exact absurd hnone (by simp)
        refine ⟨_, heq2, fun _ => ⟨fun hex => ?_, fun _ => rfl⟩, fun hc => absurd hcond hc⟩
        obtain ⟨i, hi, hp⟩ := hex
        exact absurd hp (hall i hi)
  · rw [if_neg hcond] at heq
    exact ⟨_, heq, fun hc => absurd hc hcond, fun _ => rfl⟩

/-- C4 witness: the concrete zero-grown vertex next to a growing defect
across a fully-grown edge side has a defined update-stage result. -/
theorem C4_update_stage_witness : (c4Vertex.update_stage c4State).isSome = true := by
  obtain ⟨v1, hv1, -⟩ := C4_update_stage c4State c4Vertex (by decide)
  rw [hv1]
  rfl

end ClaimC4

section ClaimC10

open RTL

/-- A failing `exceptTraverse` exposes a failing element. -/
lemma exceptTraverse_error {α β : Type} (f : α → Except String β) (l : List α) (msg : String)
    (h : exceptTraverse f l = .error msg) : ∃ x ∈ l, f x = .error msg := by
  induction l with
  | nil => exact absurd h (by simp [exceptTraverse])
  | cons x xs ih =>
      unfold exceptTraverse at h
      cases hx : f x with
      | error e =>
          rw [hx] at h
          exact ⟨x, List.mem_cons_self x xs, hx.trans (by injection h with h1; rw [h1])⟩
      | ok y =>
          rw [hx] at h
          cases hxs : exceptTraverse f xs with
          | error e =>
              rw [hxs] at h
              obtain ⟨z, hz, hfz⟩ := ih (hxs.trans (by injection h with h1; rw [h1]))
              exact ⟨z, List.mem_cons_of_mem x hz, hfz⟩
          | ok ys => rw [hxs] at h; exact absurd h (by simp)

/-- A successful `exceptTraverse` maps members to members. -/
lemma exceptTraverse_mem {α β : Type} (f : α → Except String β) (l : List α) (ys : List β)
    (h : exceptTraverse f l = .ok ys) : ∀ y ∈ ys, ∃ x ∈ l, f x = .ok y := by
  induction l generalizing ys with
  | nil =>
      unfold exceptTraverse at h
      injection h with h1
      rw [← h1]
      intro y hy
      exact absurd hy (by simp)
  | cons x xs ih =>
      unfold exceptTraverse at h
      cases hx : f x with
      | error e => rw [hx] at h; exact absurd h (by simp)
      | ok y0 =>
          rw [hx] at h
          cases hxs : exceptTraverse f xs with
          | error e => rw [hxs] at h; exact absurd h (by simp)
          | ok ys0 =>
              rw [hxs] at h
              injection h with h1
              rw [← h1]
              intro y hy
              rcases List.mem_cons.mp hy with hy0 | hyr
              · exact ⟨x, List.mem_cons_self x xs, by rw [hy0]; exact hx⟩
              · obtain ⟨z, hz, hfz⟩ := ih ys0 hxs y hyr
                exact ⟨z, List.mem_cons_of_mem x hz, hfz⟩

/-- `exceptTraverse` succeeds when every element succeeds. -/
lemma exceptTraverse_isOk {α β : Type} (f : α → Except String β) (l : List α)
    (h : ∀ x ∈ l, ∃ y, f x = .ok y) : ∃ ys, exceptTraverse f l = .ok ys := by
  induction l with
  | nil => exact ⟨[], rfl⟩
  | cons x xs ih =>
      obtain ⟨y, hy⟩ := h x (List.mem_cons_self x xs)
      obtain ⟨ys, hys⟩ := ih (fun z hz => h z (List.mem_cons_of_mem x hz))
      exact ⟨y :: ys, by unfold exceptTraverse; rw [hy, hys]⟩

/-- A successful `optionTraverse` maps members to members. -/
lemma optionTraverse_mem {α β : Type} (f : α → Option β) (l : List α) (ys : List β)
    (h : optionTraverse f l = some ys) : ∀ y ∈ ys, ∃ x ∈ l, f x = some y := by
  induction l generalizing ys with
  | nil =>
      unfold optionTraverse at h
      injection h with h1
      rw [← h1]
      intro y hy
      exact absurd hy (by simp)
  | cons x xs ih =>
      unfold optionTraverse at h
      cases hx : f x with
      | none => rw [hx] at h; exact absurd h (by simp)
      | some y0 =>
          rw [hx] at h
          cases hxs : optionTraverse f xs with
          | none => rw [hxs] at h; exact absurd h (by simp)
          | some ys0 =>
              rw [hxs] at h
              injection h with h1
              rw [← h1]
              intro y hy
              rcases List.mem_cons.mp hy with hy0 | hyr
              · exact ⟨x, List.mem_cons_self x xs, by rw [hy0]; exact hx⟩
              · obtain ⟨z, hz, hfz⟩ := ih ys0 hxs y hyr
                exact ⟨z, List.mem_cons_of_mem x hz, hfz⟩

/-- `optionTraverse` succeeds when every element succeeds. -/
lemma optionTraverse_isSome {α β : Type} (f : α → Option β) (l : List α)
    (h : ∀ x ∈ l, ∃ y, f x = some y) : ∃ ys, optionTraverse f l = some ys := by
  induction l with
  | nil => exact ⟨[], rfl⟩
  | cons x xs ih =>
      obtain ⟨y, hy⟩ := h x (List.mem_cons_self x xs)
      obtain ⟨ys, hys⟩ := ih (fun z hz => h z (List.mem_cons_of_mem x hz))
      exact ⟨y :: ys, by unfold optionTraverse; rw [hy, hys]⟩

/-- `Vertex::execute_stage` never changes the adjacency list. -/
lemma execute_stage_edge_indices (v v1 : Vertex) (instruction : Instruction)
    (h : v.execute_stage instruction = .ok v1) : v1.edge_indices = v.edge_indices := by
  unfold Vertex.execute_stage at h
  cases instruction <;> simp only at h <;> (try split_ifs at h) <;>
    (injection h with h1) <;> rw [← h1]

/-- `Vertex::execute_stage` can only fail with the grow assertion. -/
lemma execute_stage_error_msg (v : Vertex) (instruction : Instruction) (msg : String)
    (h : v.execute_stage instruction = .error msg) : msg = vertex_grow_assert_msg := by
  unfold Vertex.execute_stage at h
  cases instruction <;> simp only at h <;> (try split_ifs at h) <;>
    first
      | (injection h with h1; rw [← h1])
      | exact absurd h (by simp)

/-- `Edge::execute_stage` can only fail with the growth-range assertion. -/
lemma edge_execute_stage_error_msg (s : DualModuleRTL) (e : Edge)
    (instruction : Instruction) (msg : String)
    (h : e.execute_stage s instruction = .error msg) : msg = edge_grow_assert_msg := by
  unfold Edge.execute_stage at h
  cases instruction <;> simp only at h <;> (try split_ifs at h) <;>
    first
      | (injection h with h1; rw [← h1])
      | exact absurd h (by simp)

/-- `Vertex::update_stage` never changes the adjacency list. -/
lemma update_stage_edge_indices (s : DualModuleRTL) (v v1 : Vertex)
    (h : v.update_stage s = some v1) : v1.edge_indices = v.edge_indices := by
  unfold Vertex.update_stage at h
  cases hr : listReduce Option.or (v.peer_candidates s) with
  | none => rw [hr] at h; exact absurd h (by simp)
  | some p =>
      rw [hr] at h
      split_ifs at h with hcond
      · cases p with
        | some peer =>
            injection h with h1
            rw [← h1]
        | none =>
            injection h with h1
            rw [← h1]
      · injection h with h1
        rw [← h1]

/-- The successful path through `execute_instruction`: a successful
execute-stage sweep followed by a successful update-stage sweep returns
the updated state and no response. -/
lemma execute_instruction_eq (s s1 s2 : DualModuleRTL) (instruction : Instruction)
    (h1 : s.execute_stage instruction = .ok s1) (h2 : s1.update_stage = .ok s2) :
    s.execute_instruction instruction = .ok (s2, none) := by
  simp only [DualModuleRTL.execute_instruction, h1, h2]

/-- Under the all-vertices-have-edges invariant, one instruction either
completes returning no response with the invariant preserved, or stops at
one of the two execute-stage assertions — never at the update-stage
`unwrap`. -/
lemma execute_instruction_cases (s : DualModuleRTL) (instruction : Instruction)
    (hinv : ∀ v ∈ s.vertices, v.edge_indices ≠ []) :
    (∃ s2, s.execute_instruction instruction = .ok (s2, none) ∧
      ∀ v ∈ s2.vertices, v.edge_indices ≠ []) ∨
    s.execute_instruction instruction = .error vertex_grow_assert_msg ∨
    s.execute_instruction instruction = .error edge_grow_assert_msg := by
  cases h1 : s.execute_stage instruction with
  | error e =>
      right
      have hgoal : s.execute_instruction instruction = .error e := by
        simp only [DualModuleRTL.execute_instruction, h1]
      have hmsg : e = vertex_grow_assert_msg ∨ e = edge_grow_assert_msg := by
        unfold DualModuleRTL.execute_stage at h1
        cases hv : exceptTraverse (fun v => v.execute_stage instruction) s.vertices with
        | error e1 =>
            rw [hv] at h1
            injection h1 with h2
            obtain ⟨x, _, hx⟩ := exceptTraverse_error _ _ _ hv
            exact Or.inl (by rw [show e = e1 from h2.symm]
                             exact execute_stage_error_msg x instruction e1 hx)
        | ok vs =>
            rw [hv] at h1
            cases he : exceptTraverse (fun e0 => e0.execute_stage s instruction) s.edges with
            | error e1 =>
                rw [he] at h1
                injection h1 with h2
                obtain ⟨x, _, hx⟩ := exceptTraverse_error _ _ _ he
                exact Or.inr (by rw [show e = e1 from h2.symm]
                                 exact edge_execute_stage_error_msg s x instruction e1 hx)
            | ok es => rw [he] at h1; exact absurd h1 (by simp)
      rcases hmsg with hm | hm
      · left; rw [hgoal, hm]
      · right; rw [hgoal, hm]
  | ok s1 =>
      left
      have hinv1 : ∀ v ∈ s1.vertices, v.edge_indices ≠ [] := by
        unfold DualModuleRTL.execute_stage at h1
        cases hv : exceptTraverse (fun v => v.execute_stage instruction) s.vertices with
        | error e1 => rw [hv] at h1; exact absurd h1 (by simp)
        | ok vs =>
            rw [hv] at h1
            cases he : exceptTraverse (fun e0 => e0.execute_stage s instruction) s.edges with
            | error e1 => rw [he] at h1; exact absurd h1 (by simp)
            | ok es =>
                rw [he] at h1
                injection h1 with h2
                rw [← h2]
                intro v hv1
                obtain ⟨x, hx, hfx⟩ := exceptTraverse_mem _ _ _ hv v hv1
                rw [execute_stage_edge_indices x v instruction hfx]
                exact hinv x hx
      have hup : ∃ vs2, optionTraverse (fun v => v.update_stage s1) s1.vertices = some vs2 := by
        apply optionTraverse_isSome
        intro v hv
        exact ⟨_, update_stage_eq s1 v (hinv1 v hv)⟩
      obtain ⟨vs2, hvs2⟩ := hup
      have hupdate : s1.update_stage = .ok { s1 with vertices := vs2 } := by
        simp only [DualModuleRTL.update_stage, hvs2]
      refine ⟨{ s1 with vertices := vs2 }, execute_instruction_eq s s1 _ instruction h1 hupdate, ?_⟩
      intro v hv
      obtain ⟨x, hx, hfx⟩ := optionTraverse_mem _ _ _ hvs2 v hv
      rw [update_stage_edge_indices s1 x v hfx]
      exact hinv1 x hx

/-- Under the invariant, running any instruction list never hits the
update-stage `unwrap`. -/
lemma run_no_unwrap (instructions : List Instruction) :
    ∀ s : DualModuleRTL, (∀ v ∈ s.vertices, v.edge_indices ≠ []) →
      s.run instructions ≠ .error update_unwrap_msg := by
  induction instructions with
  | nil =>
      intro s hinv
      simp [DualModuleRTL.run]
  | cons i rest ih =>
      intro s hinv
      unfold DualModuleRTL.run
      rcases execute_instruction_cases s i hinv with ⟨s2, hok, hinv2⟩ | herr | herr
      · rw [hok]
        exact ih s2 hinv2
      · rw [herr]
        intro hcon
        injection hcon with h1
        exact absurd h1 (by decide)
      · rw [herr]
        intro hcon
        injection hcon with h1
        exact absurd h1 (by decide)

/-- C10: a state built by `clear` has at least one incident edge on every
vertex (the construction-time assertion), and this is preserved by every
instruction, so the `reduce(...).unwrap()` of `Vertex::update_stage` never
panics in any run from that state. -/
theorem C10_update_unwrap_safe (initializer : SolverInitializer) (s0 : DualModuleRTL)
    (h : DualModuleRTL.clear initializer = .ok s0) :
    (∀ v ∈ s0.vertices, v.edge_indices ≠ []) ∧
    ∀ instructions, s0.run instructions ≠ .error update_unwrap_msg := by
  have hinv : ∀ v ∈ s0.vertices, v.edge_indices ≠ [] := by
    simp only [DualModuleRTL.clear] at h
    cases h1 : exceptFold setVirtual (List.map initialVertex (List.range initializer.vertex_num))
        initializer.virtual_vertices with
    | error e =>
        simp only [h1] at h
        exact absurd h (by simp)
    | ok vertices1 =>
        simp only [h1] at h
        cases h2 : exceptFold addClearEdge (vertices1, []) initializer.weighted_edges.enum with
        | error e =>
            simp only [h2] at h
            exact absurd h (by simp)
        | ok p =>
            obtain ⟨vertices2, edges⟩ := p
            simp only [h2] at h
            split_ifs at h with hall
            injection h with h3
            rw [← h3]
            intro v hv
            have := List.all_eq_true.mp hall v hv
            simpa using this
  exact ⟨hinv, fun instructions => run_no_unwrap instructions s0 hinv⟩

/-- C10 witness: from the two-vertex initializer, a concrete run does not
hit the update-stage unwrap. -/
theorem C10_update_unwrap_safe_witness :
    c10State.run [.AddDefectVertex 0 0, .Grow 1] ≠ .error update_unwrap_msg :=
  (C10_update_unwrap_safe c10Init c10State (by rfl)).2 _

end ClaimC10

section ClaimC1

open RTL

/-- C1: `execute_instruction` never returns an obstacle: `Response::reduce`
is a constantly-`None` stub and the computed write-stage reduction is
discarded, so every completed instruction — in particular every
`FindObstacle` — yields `none` instead of the reduced obstacle. -/
theorem C1_find_obstacle_returns_none (s : DualModuleRTL) (instruction : Instruction)
    (out : DualModuleRTL × Option Response)
    (h : s.execute_instruction instruction = .ok out) :
    out.2 = none ∧ ∀ resp1 resp2, Response.reduce resp1 resp2 = none := by
  refine ⟨?_, fun _ _ => rfl⟩
  cases h1 : s.execute_stage instruction with
  | error e =>
      rw [show s.execute_instruction instruction = .error e by
            simp only [DualModuleRTL.execute_instruction, h1]] at h
      exact absurd h (by simp)
  | ok s1 =>
      cases h2 : s1.update_stage with
      | error e =>
          rw [show s.execute_instruction instruction = .error e by
                simp only [DualModuleRTL.execute_instruction, h1, h2]] at h
          exact absurd h (by simp)
      | ok s2 =>
          rw [execute_instruction_eq s s1 s2 instruction h1 h2] at h
          injection h with h3
          rw [← h3]

/-- C1 witness: the concrete `FindObstacle` on the C4 state returns no
response. -/
theorem C1_find_obstacle_returns_none_witness : c1Out.2 = none :=
  (C1_find_obstacle_returns_none c4State (.FindObstacle 0) c1Out (by rfl)).1

end ClaimC1

section ClaimC9

open RTL

/-- Execute stage of one vertex on `Grow`: the assertion passes and the
dual value stays non-negative whenever the growth is permitted. -/
lemma vertex_grow_ok (v : Vertex) (length : Int) (hlen : 0 ≤ length)
    (hg : 0 ≤ v.grown) (hperm : v.speed = .Shrink → length ≤ v.grown) :
    v.execute_stage (.Grow length) = .ok { v with grown := v.grown + v.get_speed * length } ∧
    0 ≤ v.grown + v.get_speed * length := by
  have hge : 0 ≤ v.grown + v.get_speed * length := by
    cases hs : v.speed with
    | Grow => simp only [Vertex.get_speed, hs]; omega
    | Stay => simp only [Vertex.get_speed, hs]; omega
    | Shrink =>
        have hp := hperm hs
        simp only [Vertex.get_speed, hs]
        omega
  refine ⟨?_, hge⟩
  simp only [Vertex.execute_stage]
  rw [if_pos hge]

/-- Execute stage of one edge on `Grow`: the three assertions pass and the
side growths stay feasible whenever the growth is permitted. -/
lemma edge_grow_ok (s : DualModuleRTL) (e : Edge) (length : Int) (hlen : 0 ≤ length)
    (hfe : 0 ≤ e.left_growth ∧ 0 ≤ e.right_growth ∧
      e.left_growth + e.right_growth ≤ e.weight)
    (hperm : (s.vertex_at e.left_index).node_index ≠ (s.vertex_at e.right_index).node_index →
      ((s.vertex_at e.left_index).speed = .Shrink → length ≤ e.left_growth) ∧
      ((s.vertex_at e.right_index).speed = .Shrink → length ≤ e.right_growth) ∧
      (0 < (s.vertex_at e.left_index).get_speed + (s.vertex_at e.right_index).get_speed →
        ((s.vertex_at e.left_index).get_speed + (s.vertex_at e.right_index).get_speed) * length
          ≤ e.weight - e.left_growth - e.right_growth)) :
    ∃ e1, e.execute_stage s (.Grow length) = .ok e1 ∧
      0 ≤ e1.left_growth ∧ 0 ≤ e1.right_growth ∧
      e1.left_growth + e1.right_growth ≤ e1.weight := by
  by_cases hd :
      (s.vertex_at e.left_index).node_index ≠ (s.vertex_at e.right_index).node_index
  · obtain ⟨h1, h2, h3⟩ := hperm hd
    obtain ⟨hfl, hfr, hfs⟩ := hfe
    have h3' :
        (s.vertex_at e.left_index).get_speed + (s.vertex_at e.right_index).get_speed ≤ 0 ∨
        ((s.vertex_at e.left_index).get_speed + (s.vertex_at e.right_index).get_speed) * length
          ≤ e.weight - e.left_growth - e.right_growth := by
      rcases lt_or_le 0
          ((s.vertex_at e.left_index).get_speed + (s.vertex_at e.right_index).get_speed) with
        hpos | hnp
      · exact Or.inr (h3 hpos)
      · exact Or.inl hnp
    have hkey : 0 ≤ e.left_growth + (s.vertex_at e.left_index).get_speed * length ∧
        0 ≤ e.right_growth + (s.vertex_at e.right_index).get_speed * length ∧
        (e.left_growth + (s.vertex_at e.left_index).get_speed * length) +
          (e.right_growth + (s.vertex_at e.right_index).get_speed * length) ≤ e.weight := by
      cases hsl : (s.vertex_at e.left_index).speed <;>
        cases hsr : (s.vertex_at e.right_index).speed <;>
        simp only [Vertex.get_speed, hsl, hsr, true_implies] at h1 h2 h3' ⊢ <;>
        refine ⟨by omega, by omega, by omega⟩
    refine ⟨{ e with
        left_growth := e.left_growth + (s.vertex_at e.left_index).get_speed * length,
        right_growth := e.right_growth + (s.vertex_at e.right_index).get_speed * length },
      ?_, hkey.1, hkey.2.1, hkey.2.2⟩
    simp only [Edge.execute_stage]
    rw [if_pos hd, if_pos ⟨hkey.1, hkey.2.1, hkey.2.2⟩]
  · refine ⟨e, ?_, hfe.1, hfe.2.1, hfe.2.2⟩
    simp only [Edge.execute_stage]
    rw [if_neg hd]

/-- C9: when the `Grow` length is non-negative and within the permitted
growth of the current feasible state, the execute stage completes (no
assertion fires) and every vertex dual value stays non-negative while
every edge keeps both side growths non-negative with sum at most the
weight. -/
theorem C9_grow_preserves_feasibility (s : DualModuleRTL) (length : Int)
    (hlen : 0 ≤ length) (hfeas : feasible s) (hperm : growth_permitted s length) :
    ∃ s1, s.execute_stage (.Grow length) = .ok s1 ∧ feasible s1 := by
  obtain ⟨hfv, hfe⟩ := hfeas
  obtain ⟨hpv, hpe⟩ := hperm
  obtain ⟨vs, hvs⟩ := exceptTraverse_isOk (fun v => v.execute_stage (.Grow length)) s.vertices
    (fun v hv => ⟨_, (vertex_grow_ok v length hlen (hfv v hv) (hpv v hv)).1⟩)
  obtain ⟨es, hes⟩ :=
    exceptTraverse_isOk (fun e0 => e0.execute_stage s (.Grow length)) s.edges
      (fun e0 he0 => by
        obtain ⟨e1, hok, -⟩ := edge_grow_ok s e0 length hlen (hfe e0 he0) (hpe e0 he0)
        exact ⟨e1, hok⟩)
  refine ⟨{ vertices := vs, edges := es }, ?_, ⟨?_, ?_⟩⟩
  · simp only [DualModuleRTL.execute_stage, hvs, hes]
  · intro v hv
    obtain ⟨x, hx, hfx⟩ := exceptTraverse_mem _ _ _ hvs v hv
    have hres := vertex_grow_ok x length hlen (hfv x hx) (hpv x hx)
    rw [hres.1] at hfx
    injection hfx with h1
    rw [← h1]
    exact hres.2
  · intro e0 he0
    obtain ⟨x, hx, hfx⟩ := exceptTraverse_mem _ _ _ hes e0 he0
    obtain ⟨e1, hok, hfeas1⟩ := edge_grow_ok s x length hlen (hfe x hx) (hpe x hx)
    rw [hok] at hfx
    injection hfx with h1
    rw [← h1]
    exact hfeas1

/-- C9 witness: growing the concrete slack-2 state by 1 completes. -/
theorem C9_grow_preserves_feasibility_witness :
    (c9State.execute_stage (.Grow 1)).toOption.isSome = true := by
  obtain ⟨s1, hok, -⟩ :=
    C9_grow_preserves_feasibility c9State 1 (by norm_num) ⟨by decide, by decide⟩
      ⟨by decide, by decide⟩
  rw [hok]
  rfl

end ClaimC9

section ClaimC5

open Primal

/-- Visiting-order membership is exactly the defect/blossom range
condition. -/
lemma mem_visit_order {N : Nat} (s : PrimalNodes N) (i : Nat) :
    i ∈ s.visit_order ↔ in_range s i := by
  unfold PrimalNodes.visit_order Primal.in_range
  simp only [List.mem_append, List.mem_range, List.mem_map]
  constructor
  · rintro (h | ⟨a, ha, rfl⟩)
    · exact Or.inl h
    · exact Or.inr ⟨by omega, by omega⟩
  · rintro (h | ⟨h1, h2⟩)
    · exact Or.inl h
    · exact Or.inr ⟨i - N, by omega, by omega⟩

/-- When the defect count is within capacity, the visiting order is
strictly increasing. -/
lemma visit_order_sorted {N : Nat} (s : PrimalNodes N) (h : s.count_defects ≤ N) :
    s.visit_order.Pairwise (· < ·) := by
  unfold PrimalNodes.visit_order
  rw [List.pairwise_append]
  refine ⟨List.pairwise_lt_range _, ?_, ?_⟩
  · rw [List.pairwise_map]
    exact (List.pairwise_lt_range _).imp (by omega)
  · intro a ha b hb
    rw [List.mem_range] at ha
    rw [List.mem_map] at hb
    obtain ⟨c, _, rfl⟩ := hb
    omega

/-- Inversion of one loop iteration of `iterate_intermediate_matching`. -/
lemma intermediate_entry_inv {N : Nat} (s : PrimalNodes N) (i : Nat)
    (e : Nat × CompactMatchTarget × TouchingLink)
    (h : s.intermediate_entry i = some e) :
    ∃ node, s.buffer i = some node ∧ node.is_outer_blossom = true ∧
      ((∃ p, node.sibling = some p ∧ i < p ∧
        e = (i, CompactMatchTarget.Peer p, node.link)) ∨
       (node.sibling = none ∧ ∃ v, node.link.peer_through = some v ∧
        e = (i, CompactMatchTarget.VirtualVertex v, node.link))) := by
  unfold PrimalNodes.intermediate_entry at h
  cases hb : s.buffer i with
  | none => rw [hb] at h; exact absurd h (by simp)
  | some node =>
      simp only [hb] at h
      cases ho : node.is_outer_blossom with
      | false => rw [ho] at h; simp at h
      | true =>
          rw [ho] at h
          rw [if_neg (show ¬ (true = false) by decide)] at h
          refine ⟨node, rfl, ho, ?_⟩
          cases hs : node.sibling with
          | some p =>
              simp only [hs] at h
              split_ifs at h with hlt
              exact Or.inl ⟨p, rfl, hlt, (Option.some.inj h).symm⟩
          | none =>
              simp only [hs] at h
              cases hv : node.link.peer_through with
              | none => rw [hv] at h; simp at h
              | some v =>
                  rw [hv] at h
                  exact Or.inr ⟨rfl, v, rfl, (Option.some.inj h).symm⟩

/-- The reporting end of an emitted report is the visited slot. -/
lemma intermediate_entry_fst {N : Nat} (s : PrimalNodes N) (i : Nat)
    (e : Nat × CompactMatchTarget × TouchingLink)
    (h : s.intermediate_entry i = some e) : e.1 = i := by
  obtain ⟨node, -, -, hcase⟩ := intermediate_entry_inv s i e h
  rcases hcase with ⟨p, -, -, rfl⟩ | ⟨-, v, -, rfl⟩ <;> rfl

/-- The loop iteration at a smaller-ID matched end emits the peer report. -/
lemma intermediate_entry_peer {N : Nat} (s : PrimalNodes N) (i : Nat) (node : PrimalNode)
    (p : Nat) (hb : s.buffer i = some node) (ho : node.is_outer_blossom = true)
    (hs : node.sibling = some p) (hlt : i < p) :
    s.intermediate_entry i = some (i, CompactMatchTarget.Peer p, node.link) := by
  unfold PrimalNodes.intermediate_entry
  simp only [hb, ho, hs]
  rw [if_neg (show ¬ (true = false) by decide), if_pos hlt]

/-- The loop iteration at a larger-ID matched end emits nothing. -/
lemma intermediate_entry_skip {N : Nat} (s : PrimalNodes N) (i : Nat) (node : PrimalNode)
    (p : Nat) (hb : s.buffer i = some node) (ho : node.is_outer_blossom = true)
    (hs : node.sibling = some p) (hlt : ¬ i < p) :
    s.intermediate_entry i = none := by
  unfold PrimalNodes.intermediate_entry
  simp only [hb, ho, hs]
  rw [if_neg (show ¬ (true = false) by decide), if_neg hlt]

/-- The loop iteration at a virtually-matched node emits the virtual
report. -/
lemma intermediate_entry_virtual {N : Nat} (s : PrimalNodes N) (i : Nat) (node : PrimalNode)
    (v : Nat) (hb : s.buffer i = some node) (ho : node.is_outer_blossom = true)
    (hs : node.sibling = none) (hv : node.link.peer_through = some v) :
    s.intermediate_entry i = some (i, CompactMatchTarget.VirtualVertex v, node.link) := by
  unfold PrimalNodes.intermediate_entry
  simp only [hb, ho, hs, hv]
  rw [if_neg (show ¬ (true = false) by decide)]
  rfl

/-- Membership in the reported sequence comes from a visited slot. -/
lemma mem_iterate {N : Nat} (s : PrimalNodes N)
    (e : Nat × CompactMatchTarget × TouchingLink) :
    e ∈ s.iterate_intermediate_matching ↔
      ∃ i, i ∈ s.visit_order ∧ s.intermediate_entry i = some e := by
  unfold PrimalNodes.iterate_intermediate_matching
  rw [List.mem_filterMap]

/-- The reporting ends are strictly increasing along any strictly
increasing visit list. -/
lemma pairwise_fst_filterMap {N : Nat} (s : PrimalNodes N) (l : List Nat)
    (hl : l.Pairwise (· < ·)) :
    ((l.filterMap s.intermediate_entry).map (fun e => e.1)).Pairwise (· < ·) := by
  induction l with
  | nil => simp
  | cons x xs ih =>
      rw [List.filterMap_cons]
      obtain ⟨hx_all, hxs⟩ := List.pairwise_cons.mp hl
      cases hx : s.intermediate_entry x with
      | none => exact ih hxs
      | some e =>
          rw [List.map_cons]
          refine List.pairwise_cons.mpr ⟨?_, ih hxs⟩
          intro b hb
          rw [List.mem_map] at hb
          obtain ⟨e1, he1, rfl⟩ := hb
          rw [List.mem_filterMap] at he1
          obtain ⟨j, hj, hej⟩ := he1
          rw [intermediate_entry_fst s j e1 hej, intermediate_entry_fst s x e hx]
          exact hx_all j hj

/-- C5: `iterate_intermediate_matching` reports in strictly ascending ID
order (defect slots below `count_defects` first, then blossom slots,
skipping absent slots); under the matched-structure hypotheses — sibling
links form an involution among visited outer nodes, and virtually matched
nodes carry a virtual vertex — every visited outer node is mentioned by
exactly one report; every peer report sits at the smaller-ID end naming
the larger ID; and every virtual report carries exactly the node's
`link.peer_through`. -/
theorem C5_intermediate_matching {N : Nat} (s : PrimalNodes N)
    (hN : s.count_defects ≤ N)
    (hsym : ∀ i node p, in_range s i → s.buffer i = some node →
      node.is_outer_blossom = true → node.sibling = some p →
      p ≠ i ∧ in_range s p ∧
        ∃ pn, s.buffer p = some pn ∧ pn.is_outer_blossom = true ∧ pn.sibling = some i)
    (hvirt : ∀ i node, in_range s i → s.buffer i = some node →
      node.is_outer_blossom = true → node.sibling = none →
      (node.link.peer_through).isSome = true) :
    ((s.iterate_intermediate_matching.map (fun e => e.1)).Pairwise (· < ·)) ∧
    (∀ i node, in_range s i → s.buffer i = some node → node.is_outer_blossom = true →
      ∃! e, e ∈ s.iterate_intermediate_matching ∧ mentions i e) ∧
    (∀ e ∈ s.iterate_intermediate_matching, ∀ p,
      e.2.1 = CompactMatchTarget.Peer p → e.1 < p) ∧
    (∀ e ∈ s.iterate_intermediate_matching, ∀ v,
      e.2.1 = CompactMatchTarget.VirtualVertex v →
      ∃ node, s.buffer e.1 = some node ∧ node.is_outer_blossom = true ∧
        node.sibling = none ∧ node.link.peer_through = some v) := by
  refine ⟨pairwise_fst_filterMap s _ (visit_order_sorted s hN), ?_, ?_, ?_⟩
  · intro i node hir hb ho
    cases hs : node.sibling with
    | some p =>
        obtain ⟨hpne, hpr, pn, hbp, hop, hsp⟩ := hsym i node p hir hb ho hs
        by_cases hlt : i < p
        · refine ⟨(i, CompactMatchTarget.Peer p, node.link),
            ⟨(mem_iterate s _).mpr ⟨i, (mem_visit_order s i).mpr hir,
              intermediate_entry_peer s i node p hb ho hs hlt⟩, Or.inl rfl⟩, ?_⟩
          rintro e1 ⟨hmem, hmen⟩
          obtain ⟨j, hj, hej⟩ := (mem_iterate s e1).mp hmem
          obtain ⟨nj, hbj, hoj, hcase⟩ := intermediate_entry_inv s j e1 hej
          rcases hmen with hf | hp2
          · have hji : j = i := (intermediate_entry_fst s j e1 hej).symm.trans hf
            subst hji
            rw [hb] at hbj
            injection hbj with hnj
            subst hnj
            rcases hcase with ⟨p1, hsp1, hlt1, rfl⟩ | ⟨hsn, v, hv, rfl⟩
            · rw [hs] at hsp1
              injection hsp1 with hpp
              subst hpp
              rfl
            · rw [hs] at hsn
              exact absurd hsn (by simp)
          · rcases hcase with ⟨p1, hsp1, hlt1, rfl⟩ | ⟨hsn, v, hv, rfl⟩
            · injection hp2 with hpi2
              subst hpi2
              obtain ⟨hne2, hir2, pn2, hbp2, hop2, hsp2⟩ :=
                hsym j nj p1 ((mem_visit_order s j).mp hj) hbj hoj hsp1
              rw [hb] at hbp2
              injection hbp2 with h2
              subst h2
              rw [hs] at hsp2
              injection hsp2 with h3
              subst h3
              exact absurd hlt1 (by omega)
            · exact absurd hp2 (by simp)
        · have hpi : p < i := by omega
          refine ⟨(p, CompactMatchTarget.Peer i, pn.link),
            ⟨(mem_iterate s _).mpr ⟨p, (mem_visit_order s p).mpr hpr,
              intermediate_entry_peer s p pn i hbp hop hsp hpi⟩, Or.inr rfl⟩, ?_⟩
          rintro e1 ⟨hmem, hmen⟩
          obtain ⟨j, hj, hej⟩ := (mem_iterate s e1).mp hmem
          obtain ⟨nj, hbj, hoj, hcase⟩ := intermediate_entry_inv s j e1 hej
          rcases hmen with hf | hp2
          · have hji : j = i := (intermediate_entry_fst s j e1 hej).symm.trans hf
            subst hji
            rw [intermediate_entry_skip s j node p hb ho hs hlt] at hej
            exact absurd hej (by simp)
          · rcases hcase with ⟨p1, hsp1, hlt1, rfl⟩ | ⟨hsn, v, hv, rfl⟩
            · injection hp2 with hpi2
              subst hpi2
              obtain ⟨hne2, hir2, pn2, hbp2, hop2, hsp2⟩ :=
                hsym j nj p1 ((mem_visit_order s j).mp hj) hbj hoj hsp1
              rw [hb] at hbp2
              injection hbp2 with h2
              subst h2
              rw [hs] at hsp2
              injection hsp2 with h3
              subst h3
              rw [hbj] at hbp
              injection hbp with h4
              subst h4
              rfl
            · exact absurd hp2 (by simp)
    | none =>
        have hv0 := hvirt i node hir hb ho hs
        obtain ⟨v, hv⟩ := Option.isSome_iff_exists.mp hv0
        refine ⟨(i, CompactMatchTarget.VirtualVertex v, node.link),
          ⟨(mem_iterate s _).mpr ⟨i, (mem_visit_order s i).mpr hir,
            intermediate_entry_virtual s i node v hb ho hs hv⟩, Or.inl rfl⟩, ?_⟩
        rintro e1 ⟨hmem, hmen⟩
        obtain ⟨j, hj, hej⟩ := (mem_iterate s e1).mp hmem
        obtain ⟨nj, hbj, hoj, hcase⟩ := intermediate_entry_inv s j e1 hej
        rcases hmen with hf | hp2
        · have hji : j = i := (intermediate_entry_fst s j e1 hej).symm.trans hf
          subst hji
          rw [hb] at hbj
          injection hbj with hnj
          subst hnj
          rcases hcase with ⟨p1, hsp1, hlt1, rfl⟩ | ⟨hsn, v1, hv1, rfl⟩
          · rw [hs] at hsp1
            exact absurd hsp1 (by simp)
          · rw [hv] at hv1
            injection hv1 with hvv
            subst hvv
            rfl
        · rcases hcase with ⟨p1, hsp1, hlt1, rfl⟩ | ⟨hsn, v1, hv1, rfl⟩
          · injection hp2 with hpi2
            subst hpi2
            obtain ⟨hne2, hir2, pn2, hbp2, hop2, hsp2⟩ :=
              hsym j nj p1 ((mem_visit_order s j).mp hj) hbj hoj hsp1
            rw [hb] at hbp2
            injection hbp2 with h2
            subst h2
            rw [hs] at hsp2
            exact absurd hsp2 (by simp)
          · exact absurd hp2 (by simp)
  · intro e hmem p hp
    obtain ⟨j, hj, hej⟩ := (mem_iterate s e).mp hmem
    obtain ⟨nj, hbj, hoj, hcase⟩ := intermediate_entry_inv s j e hej
    rcases hcase with ⟨p1, hsp1, hlt1, rfl⟩ | ⟨hsn, v, hv, rfl⟩
    · injection hp with hpp
      subst hpp
      exact hlt1
    · exact absurd hp (by simp)
  · intro e hmem v hv
    obtain ⟨j, hj, hej⟩ := (mem_iterate s e).mp hmem
    obtain ⟨nj, hbj, hoj, hcase⟩ := intermediate_entry_inv s j e hej
    rcases hcase with ⟨p1, hsp1, hlt1, rfl⟩ | ⟨hsn, v1, hv1, rfl⟩
    · exact absurd hv (by simp)
    · injection hv with hvv
      subst hvv
      exact ⟨nj, hbj, hoj, hsn, hv1⟩

/-- C5 witness: on the concrete two-defect matched arena the reporting
ends are strictly increasing, and the computed report list is exactly the
single pair reported at the smaller end. -/
theorem C5_intermediate_matching_witness :
    ((c5State.iterate_intermediate_matching.map (fun e => e.1)).Pairwise (· < ·)) ∧
    c5State.iterate_intermediate_matching =
      [(0, CompactMatchTarget.Peer 1, c5Node0.link)] := by
  have hsym : ∀ i node p, in_range c5State i → c5State.buffer i = some node →
      node.is_outer_blossom = true → node.sibling = some p →
      p ≠ i ∧ in_range c5State p ∧
        ∃ pn, c5State.buffer p = some pn ∧ pn.is_outer_blossom = true ∧
          pn.sibling = some i := by
    intro i node p hir hb ho hs
    have hi : i < 2 := by
      simp only [Primal.in_range, Primal.c5State] at hir
      omega
    interval_cases i
    · rw [show c5State.buffer 0 = some c5Node0 from rfl] at hb
      injection hb with hn
      subst hn
      rw [show c5Node0.sibling = some 1 from rfl] at hs
      injection hs with hp
      subst hp
      exact ⟨by decide, Or.inl (by decide), c5Node1, rfl, rfl, rfl⟩
    · rw [show c5State.buffer 1 = some c5Node1 from rfl] at hb
      injection hb with hn
      subst hn
      rw [show c5Node1.sibling = some 0 from rfl] at hs
      injection hs with hp
      subst hp
      exact ⟨by decide, Or.inl (by decide), c5Node0, rfl, rfl, rfl⟩
  have hvirt : ∀ i node, in_range c5State i → c5State.buffer i = some node →
      node.is_outer_blossom = true → node.sibling = none →
      (node.link.peer_through).isSome = true := by
    intro i node hir hb ho hs
    have hi : i < 2 := by
      simp only [Primal.in_range, Primal.c5State] at hir
      omega
    interval_cases i
    · rw [show c5State.buffer 0 = some c5Node0 from rfl] at hb
      injection hb with hn
      subst hn
      exact absurd hs (by decide)
    · rw [show c5State.buffer 1 = some c5Node1 from rfl] at hb
      injection hb with hn
      subst hn
      exact absurd hs (by decide)
  exact ⟨(C5_intermediate_matching c5State (by decide) hsym hvirt).1, by decide⟩

end ClaimC5

end MicroBlossom
